import Mathlib

/-!
Shallow embedding of the core of the stock-fantasy-api repository:
the paper-trading execution engine (`src/app/trading_engine.py`), the
LLM response parsing and parallel decision fan-out
(`src/app/core/llm_service.py`), the scoring engine
(`src/app/services/scoring_service.py`) and the RSI indicator
(`src/app/market_data_service.py`).

Python floats are embedded as `Rat`; Python ints as `Int`/`Nat`;
Python dicts as insertion-ordered association lists with unique keys
(updating an existing key keeps its slot, a new key is appended, `del`
removes the entry — exactly the observable behaviour of a Python dict).
Fallible Python code (raised exceptions) is embedded with
`Option`/`Except`.
-/

namespace StockFantasy

/-- Association-list lookup with decidable-equality keys: the value stored
at `k`, mirroring Python `d.get(k)` / `k in d`. -/
def alistGet {κ β : Type} [DecidableEq κ] : List (κ × β) → κ → Option β
  | [], _ => none
  | (k, v) :: rest, t => if k = t then some v else alistGet rest t

/-- Membership test for an association list, mirroring Python `k in d`. -/
def alistHas {κ β : Type} [DecidableEq κ] (ps : List (κ × β)) (t : κ) : Bool :=
  (alistGet ps t).isSome

/-- Association-list update, mirroring Python `d[k] = v`: an existing key is
overwritten in place (insertion order kept), a new key is appended. -/
def alistSet {κ β : Type} [DecidableEq κ] : List (κ × β) → κ → β → List (κ × β)
  | [], t, q => [(t, q)]
  | (k, v) :: rest, t, q => if k = t then (t, q) :: rest else (k, v) :: alistSet rest t q

/-- Association-list deletion, mirroring Python `del d[k]`. -/
def alistDel {κ β : Type} [DecidableEq κ] (ps : List (κ × β)) (t : κ) : List (κ × β) :=
  ps.filter (fun p => p.1 ≠ t)

/-- Python `str.lower()` embedded structurally (character-wise ASCII case
mapping; actions and tickers in this code base are ASCII). -/
def strLower (s : String) : String := ⟨s.data.map Char.toLower⟩

/-- Python `str.upper()` embedded structurally. -/
def strUpper (s : String) : String := ⟨s.data.map Char.toUpper⟩

/-- LLMDecision (`src/app/core/schemas.py`): the model output consumed by the
execution engine. `raw_response` is dropped (engine-irrelevant). -/
structure LLMDecision where
  action : String
  ticker : Option String := none
  quantity : Option Int := none
  confidence : Rat := 0
  reasoning : String := ""
deriving Repr, DecidableEq

/-- Positions map of an account: ticker → held quantity
(Python dict in `account_state["positions"]`). -/
abbrev Positions := List (String × Int)

/-- AccountState (`account_state` dict in `src/app/trading_engine.py`):
`starting_capital`, `current_cash` and the positions map. The Python code
reads these keys with defaults; the embedding makes them plain fields. -/
structure AccountState where
  starting_capital : Rat
  current_cash : Rat
  positions : Positions
deriving Repr, DecidableEq

/-- Trade record (`Trade` in the schemas) restricted to the fields the
engine and the scoring code read: action, ticker, quantity, entry price.
Ids and timestamps are assigned by the database and irrelevant here. -/
structure Trade where
  action : String
  ticker : String
  quantity : Int
  entry_price : Rat
deriving Repr, DecidableEq

/-- Result of `TradingEngine.execute_decision`: the Python function returns
`(success, trade, error)` and writes the new cash/positions through the
database client only on success; `state` is the account state as persisted
after the call (unchanged on every rejection and on hold). -/
structure ExecResult where
  success : Bool
  trade : Option Trade
  error : Option String
  state : AccountState
deriving Repr, DecidableEq

/-- TradingEngine.MAX_POSITIONS (`src/app/trading_engine.py`, line 18). -/
def MAX_POSITIONS : Nat := 5

/-- TradingEngine.MAX_POSITION_SIZE_PCT (line 19): 30% of portfolio. -/
def MAX_POSITION_SIZE_PCT : Rat := 30 / 100

/-- Effective quantity of a decision: Python `decision.quantity or 1`
(line 86/150). `None` and `0` are both falsy in Python, so an explicit
quantity of 0 also falls back to 1; any other value passes through. -/
def effQuantity : Option Int → Int
  | none => 1
  | some n => if n = 0 then 1 else n

/-- Rejection reason of the position-size check
(`src/app/trading_engine.py`, line 106). -/
def positionTooLargeMsg (order_value max_position_value : Rat) : String :=
  s!"Position too large: {order_value} > {max_position_value}"

/-- TradingEngine._execute_buy (`src/app/trading_engine.py`, lines 76-138).
`tick` is the decision ticker (already known to be non-empty). -/
def executeBuy (d : LLMDecision) (price : Rat) (st : AccountState) (tick : String) :
    ExecResult :=
  let ticker := strUpper tick
  let quantity := effQuantity d.quantity
  if quantity ≤ 0 then
    ⟨false, none, some "Quantity must be positive", st⟩
  else
    let order_value := price * (quantity : Rat)
    if order_value > st.current_cash then
      ⟨false, none, some s!"Insufficient cash: {order_value} > {st.current_cash}", st⟩
    else
      let max_position_value := st.starting_capital * MAX_POSITION_SIZE_PCT
      if order_value > max_position_value then
        ⟨false, none, some (positionTooLargeMsg order_value max_position_value), st⟩
      else if MAX_POSITIONS ≤ st.positions.length ∧ ¬ alistHas st.positions ticker then
        ⟨false, none, some "Max 5 positions reached", st⟩
      else
        let trade : Trade := ⟨"buy", ticker, quantity, price⟩
        let new_positions :=
          alistSet st.positions ticker (((alistGet st.positions ticker).getD 0) + quantity)
        let new_cash := st.current_cash - order_value
        ⟨true, some trade, none,
          { st with current_cash := new_cash, positions := new_positions }⟩

/-- TradingEngine._execute_sell (`src/app/trading_engine.py`, lines 140-191). -/
def executeSell (d : LLMDecision) (price : Rat) (st : AccountState) (tick : String) :
    ExecResult :=
  let ticker := strUpper tick
  let quantity := effQuantity d.quantity
  if quantity ≤ 0 then
    ⟨false, none, some "Quantity must be positive", st⟩
  else if ¬ alistHas st.positions ticker ∨ (alistGet st.positions ticker).getD 0 < quantity then
    ⟨false, none,
      some s!"Insufficient {ticker} position: {(alistGet st.positions ticker).getD 0} < {quantity}",
      st⟩
  else
    let sell_proceeds := price * (quantity : Rat)
    let trade : Trade := ⟨"sell", ticker, quantity, price⟩
    let q2 := ((alistGet st.positions ticker).getD 0) - quantity
    let np1 := alistSet st.positions ticker q2
    let new_positions := if q2 = 0 then alistDel np1 ticker else np1
    let new_cash := st.current_cash + sell_proceeds
    ⟨true, some trade, none,
      { st with current_cash := new_cash, positions := new_positions }⟩

/-- TradingEngine.execute_decision (`src/app/trading_engine.py`, lines 31-74).
Python `if not decision.ticker` treats both `None` and the empty string as
missing. -/
def executeDecision (d : LLMDecision) (price : Rat) (st : AccountState) : ExecResult :=
  let action := strLower d.action
  if action = "hold" then
    ⟨true, none, none, st⟩
  else if action ≠ "buy" ∧ action ≠ "sell" then
    ⟨false, none, some s!"Invalid action: {action}", st⟩
  else
    match d.ticker with
    | none => ⟨false, none, some "No ticker provided", st⟩
    | some t =>
      if t = "" then ⟨false, none, some "No ticker provided", st⟩
      else if action = "buy" then executeBuy d price st t
      else executeSell d price st t

/-! ### Association-list lemmas used by the invariant proofs -/

theorem alistHas_false_iff {κ β : Type} [DecidableEq κ] (ps : List (κ × β)) (t : κ) :
    alistHas ps t = false ↔ alistGet ps t = none := by
  unfold alistHas
  cases alistGet ps t <;> simp

theorem alistHas_iff_mem_keys {κ β : Type} [DecidableEq κ] (ps : List (κ × β)) (t : κ) :
    alistHas ps t = true ↔ t ∈ ps.map Prod.fst := by
  induction ps with
  | nil => simp [alistHas, alistGet]
  | cons hd rest ih =>
    obtain ⟨k, v⟩ := hd
    by_cases h : k = t
    · simp [alistHas, alistGet, h]
    · simpa [alistHas, alistGet, h, Ne.symm h] using ih

theorem mem_alistSet {κ β : Type} [DecidableEq κ] {ps : List (κ × β)} {t : κ} {q : β}
    {p : κ × β} (hp : p ∈ alistSet ps t q) : p = (t, q) ∨ p ∈ ps := by
  induction ps with
  | nil => simpa [alistSet] using hp
  | cons hd rest ih =>
    obtain ⟨k, v⟩ := hd
    by_cases h : k = t
    · simp only [alistSet, if_pos h] at hp
      rcases List.mem_cons.mp hp with h1 | h2
      · exact Or.inl h1
      · exact Or.inr (List.mem_cons_of_mem _ h2)
    · simp only [alistSet, if_neg h] at hp
      rcases List.mem_cons.mp hp with h1 | h2
      · exact Or.inr (h1 ▸ List.mem_cons_self _ _)
      · rcases ih h2 with h3 | h4
        · exact Or.inl h3
        · exact Or.inr (List.mem_cons_of_mem _ h4)

theorem alistSet_keys_of_has {κ β : Type} [DecidableEq κ] {ps : List (κ × β)} {t : κ} (q : β)
    (h : alistHas ps t = true) :
    (alistSet ps t q).map Prod.fst = ps.map Prod.fst := by
  induction ps with
  | nil => simp [alistHas, alistGet] at h
  | cons hd rest ih =>
    obtain ⟨k, v⟩ := hd
    by_cases hk : k = t
    · simp [alistSet, hk]
    · simp only [alistHas, alistGet, if_neg hk] at h
      simpa [alistSet, hk] using ih h

theorem alistSet_keys_of_not_has {κ β : Type} [DecidableEq κ] {ps : List (κ × β)} {t : κ} (q : β)
    (h : alistHas ps t = false) :
    (alistSet ps t q).map Prod.fst = ps.map Prod.fst ++ [t] := by
  induction ps with
  | nil => simp [alistSet]
  | cons hd rest ih =>
    obtain ⟨k, v⟩ := hd
    by_cases hk : k = t
    · simp [alistHas, alistGet, hk] at h
    · simp only [alistHas, alistGet, if_neg hk] at h
      simpa [alistSet, hk] using ih h

theorem alistGet_pos_of_has {ps : Positions} {t : String}
    (hpos : ∀ p ∈ ps, 0 < p.2) (h : alistHas ps t = true) :
    0 < (alistGet ps t).getD 0 := by
  induction ps with
  | nil => simp [alistHas, alistGet] at h
  | cons hd rest ih =>
    obtain ⟨k, v⟩ := hd
    by_cases hk : k = t
    · simpa [alistGet, hk] using hpos (k, v) (List.mem_cons_self _ _)
    · simp only [alistHas, alistGet, if_neg hk] at h ⊢
      exact ih (fun p hp => hpos p (List.mem_cons_of_mem _ hp)) h

theorem alistGet_nonneg (ps : Positions) (t : String)
    (hpos : ∀ p ∈ ps, 0 < p.2) : 0 ≤ (alistGet ps t).getD 0 := by
  by_cases h : alistHas ps t = true
  · exact le_of_lt (alistGet_pos_of_has hpos h)
  · rw [Bool.not_eq_true, alistHas_false_iff] at h
    simp [h]

theorem alistDel_sublist {κ β : Type} [DecidableEq κ] (ps : List (κ × β)) (t : κ) :
    (alistDel ps t).Sublist ps :=
  List.filter_sublist ps

/-! ### C3: rejections leave the account state unchanged -/

/-- C3: for every decision and account state, whenever `execute_decision`
rejects the decision (success = false, any reason), it returns a reason
string and the account state it leaves behind is exactly the pre-call
state: no partial mutation happens on failure. -/
theorem executeDecision_rejection_preserves_state
    (d : LLMDecision) (price : Rat) (st : AccountState)
    (h : (executeDecision d price st).success = false) :
    (executeDecision d price st).state = st ∧
      (executeDecision d price st).error.isSome = true := by
  revert h
  simp only [executeDecision, executeBuy, executeSell]
  rcases hd : d.ticker with _ | t <;> simp only [hd] <;> split_ifs <;> simp

/-- Witness for C3 at a concrete rejected decision: a buy with no cash. -/
theorem executeDecision_rejection_preserves_state_witness :
    (executeDecision { action := "buy", ticker := some "AAPL" } 100 ⟨10000, 0, []⟩).state =
        ⟨10000, 0, []⟩ ∧
      (executeDecision { action := "buy", ticker := some "AAPL" } 100 ⟨10000, 0, []⟩).error.isSome =
        true :=
  executeDecision_rejection_preserves_state _ _ _ (by norm_num [executeDecision, executeBuy,
    effQuantity, alistGet, alistHas, alistSet, MAX_POSITIONS, MAX_POSITION_SIZE_PCT]; decide)

/-! ### C4: account-state invariants -/

/-- AccountState invariant of the spec data model: non-negative cash, all
held quantities positive, distinct tickers, at most MAX_POSITIONS keys. -/
def WF (st : AccountState) : Prop :=
  0 ≤ st.current_cash ∧
    (∀ p ∈ st.positions, 0 < p.2) ∧
    (st.positions.map Prod.fst).Nodup ∧
    st.positions.length ≤ MAX_POSITIONS

theorem executeBuy_preserves_WF (d : LLMDecision) (price : Rat) (st : AccountState)
    (tick : String) (hwf : WF st)
    (hsucc : (executeBuy d price st tick).success = true) :
    WF (executeBuy d price st tick).state := by
  obtain ⟨hcash, hpos, hnodup, hlen⟩ := hwf
  revert hsucc
  simp only [executeBuy]
  split_ifs with h1 h2 h3 h4 <;> intro hsucc
  · exact absurd hsucc (by simp)
  · exact absurd hsucc (by simp)
  · exact absurd hsucc (by simp)
  · exact absurd hsucc (by simp)
  refine ⟨?_, ?_, ?_, ?_⟩
  · exact sub_nonneg.mpr (not_lt.mp h2)
  · intro p hp
    rcases mem_alistSet hp with h | h
    · rw [h]
      have hq : 0 < effQuantity d.quantity := lt_of_not_le h1
      have hg : 0 ≤ (alistGet st.positions (strUpper tick)).getD 0 :=
        alistGet_nonneg _ _ hpos
      show 0 < (alistGet st.positions (strUpper tick)).getD 0 + effQuantity d.quantity
      omega
    · exact hpos p h
  · by_cases hh : alistHas st.positions (strUpper tick) = true
    · rw [alistSet_keys_of_has _ hh]
      exact hnodup
    · have hh2 : alistHas st.positions (strUpper tick) = false := by
        simpa using hh
      rw [alistSet_keys_of_not_has _ hh2]
      have hni : strUpper tick ∉ st.positions.map Prod.fst := by
        intro hmem
        rw [← alistHas_iff_mem_keys] at hmem
        simp [hh2] at hmem
      simp [List.nodup_append, hnodup, hni]
  · have hml : (alistSet st.positions (strUpper tick)
        (((alistGet st.positions (strUpper tick)).getD 0) + effQuantity d.quantity)).length =
        ((alistSet st.positions (strUpper tick)
          (((alistGet st.positions (strUpper tick)).getD 0) + effQuantity d.quantity)).map
            Prod.fst).length := (List.length_map _ _).symm
    by_cases hh : alistHas st.positions (strUpper tick) = true
    · rw [hml, alistSet_keys_of_has _ hh, List.length_map]
      exact hlen
    · have hh2 : alistHas st.positions (strUpper tick) = false := by
        simpa using hh
      have h5 : ¬ MAX_POSITIONS ≤ st.positions.length := fun hge =>
        h4 ⟨hge, by simp [hh2]⟩
      rw [hml, alistSet_keys_of_not_has _ hh2, List.length_append, List.length_map]
      simpa using Nat.succ_le_of_lt (not_le.mp h5)

theorem executeSell_preserves_WF (d : LLMDecision) (price : Rat) (st : AccountState)
    (tick : String) (hpr : 0 ≤ price) (hwf : WF st)
    (hsucc : (executeSell d price st tick).success = true) :
    WF (executeSell d price st tick).state := by
  obtain ⟨hcash, hpos, hnodup, hlen⟩ := hwf
  revert hsucc
  simp only [executeSell]
  split_ifs with h1 h2 h3 <;> intro hsucc
  · exact absurd hsucc (by simp)
  · exact absurd hsucc (by simp)
  all_goals push_neg at h2
  all_goals obtain ⟨hhas, hge⟩ := h2
  all_goals have hq : 0 < effQuantity d.quantity := lt_of_not_le h1
  all_goals have hqr : (0 : Rat) ≤ ((effQuantity d.quantity : Int) : Rat) :=
    Int.cast_nonneg.mpr (le_of_lt hq)
  all_goals have hkeys : List.map Prod.fst (alistSet st.positions (strUpper tick)
      (((alistGet st.positions (strUpper tick)).getD 0) - effQuantity d.quantity)) =
      List.map Prod.fst st.positions := alistSet_keys_of_has _ hhas
  · -- quantity reaches zero: the entry is deleted
    refine ⟨add_nonneg hcash (mul_nonneg hpr hqr), ?_, ?_, ?_⟩
    · intro p hp
      simp only [alistDel, List.mem_filter, decide_eq_true_eq] at hp
      rcases mem_alistSet hp.1 with h | h
      · exact absurd (congrArg Prod.fst h) hp.2
      · exact hpos p h
    · have hsub := List.Sublist.map Prod.fst (alistDel_sublist (alistSet st.positions
        (strUpper tick) (((alistGet st.positions (strUpper tick)).getD 0) -
          effQuantity d.quantity)) (strUpper tick))
      rw [hkeys] at hsub
      exact List.Nodup.sublist hsub hnodup
    · calc (alistDel _ _).length ≤ _ := List.Sublist.length_le (alistDel_sublist _ _)
        _ = _ := (List.length_map _ _).symm
        _ = (st.positions.map Prod.fst).length := by rw [hkeys]
        _ = st.positions.length := List.length_map _ _
        _ ≤ MAX_POSITIONS := hlen
  · -- quantity stays positive: the entry is kept
    refine ⟨add_nonneg hcash (mul_nonneg hpr hqr), ?_, ?_, ?_⟩
    · intro p hp
      rcases mem_alistSet hp with h | h
      · rw [h]
        show 0 < (alistGet st.positions (strUpper tick)).getD 0 - effQuantity d.quantity
        omega
      · exact hpos p h
    · rw [hkeys]
      exact hnodup
    · calc (alistSet _ _ _).length = ((alistSet _ _ _).map Prod.fst).length :=
          (List.length_map _ _).symm
        _ = (st.positions.map Prod.fst).length := by rw [hkeys]
        _ = st.positions.length := List.length_map _ _
        _ ≤ MAX_POSITIONS := hlen

theorem executeDecision_cases (d : LLMDecision) (price : Rat) (st : AccountState) :
    executeDecision d price st = ⟨true, none, none, st⟩ ∨
      (executeDecision d price st).success = false ∨
      (∃ t, d.ticker = some t ∧ executeDecision d price st = executeBuy d price st t) ∨
      (∃ t, d.ticker = some t ∧ executeDecision d price st = executeSell d price st t) := by
  simp only [executeDecision]
  rcases hd : d.ticker with _ | t <;> split_ifs
  · exact Or.inl rfl
  · exact Or.inr (Or.inl rfl)
  · exact Or.inr (Or.inl rfl)
  · exact Or.inr (Or.inl rfl)
  · exact Or.inl rfl
  · exact Or.inr (Or.inl rfl)
  · rename_i hb
    by_cases ht0 : t = ""
    · exact Or.inr (Or.inl (by simp [ht0]))
    · exact Or.inr (Or.inr (Or.inl ⟨t, rfl, by simp [ht0, hb]⟩))
  · rename_i hnb
    by_cases ht0 : t = ""
    · exact Or.inr (Or.inl (by simp [ht0]))
    · exact Or.inr (Or.inr (Or.inr ⟨t, rfl, by simp [ht0, hnb]⟩))

theorem executeBuy_full_reject (d : LLMDecision) (price : Rat) (st : AccountState)
    (tick : String) (hlen : MAX_POSITIONS ≤ st.positions.length)
    (hnot : alistHas st.positions (strUpper tick) = false) :
    (executeBuy d price st tick).success = false := by
  simp only [executeBuy]
  split_ifs with h1 h2 h3 h4
  · rfl
  · rfl
  · rfl
  · rfl
  exact absurd ⟨hlen, by simp [hnot]⟩ h4

/-- C4: every accepted trade preserves the account invariant (non-negative
cash, strictly positive quantities for all keys, distinct tickers, at most
5 positions), and a buy of a sixth distinct ticker is always rejected when
five distinct tickers are already held. -/
theorem executeDecision_preserves_invariants :
    (∀ (d : LLMDecision) (price : Rat) (st : AccountState), 0 ≤ price → WF st →
        (executeDecision d price st).success = true →
        WF (executeDecision d price st).state) ∧
      (∀ (d : LLMDecision) (price : Rat) (st : AccountState) (t : String), WF st →
        st.positions.length = 5 → strLower d.action = "buy" → d.ticker = some t →
        t ≠ "" → alistHas st.positions (strUpper t) = false →
        (executeDecision d price st).success = false) := by
  constructor
  · intro d price st hpr hwf hsucc
    rcases executeDecision_cases d price st with h | h | ⟨t, ht, h⟩ | ⟨t, ht, h⟩
    · rw [h]
      exact hwf
    · rw [h] at hsucc
      exact Bool.noConfusion hsucc
    · rw [h] at hsucc ⊢
      exact executeBuy_preserves_WF _ _ _ _ hwf hsucc
    · rw [h] at hsucc ⊢
      exact executeSell_preserves_WF _ _ _ _ hpr hwf hsucc
  · intro d price st t hwf hlen5 hbuy htick hne hnothas
    simp only [executeDecision, hbuy, htick, hne]
    simp only [String.reduceEq, reduceIte, ne_eq, not_false_eq_true, and_self, if_false,
      if_true, not_true_eq_false, and_false, false_and]
    exact executeBuy_full_reject _ _ _ _ (by rw [hlen5]; decide) hnothas

/-- Witness for C4: an accepted first buy preserves the invariant, and a
sixth distinct ticker is rejected on a full account. -/
theorem executeDecision_preserves_invariants_witness :
    WF (executeDecision { action := "buy", ticker := some "AAPL", quantity := some 10 } 150
        ⟨10000, 10000, []⟩).state ∧
      (executeDecision { action := "buy", ticker := some "F", quantity := some 1 } 100
        ⟨10000, 10000, [("A", 1), ("B", 1), ("C", 1), ("D", 1), ("E", 1)]⟩).success = false :=
  ⟨executeDecision_preserves_invariants.1 _ _ _ (by norm_num)
      (by constructor <;> simp [MAX_POSITIONS])
      (by norm_num [executeDecision, executeBuy, effQuantity, alistGet, alistHas, alistSet,
            MAX_POSITIONS, MAX_POSITION_SIZE_PCT]
          decide),
    executeDecision_preserves_invariants.2 _ _ _ "F"
      (by refine ⟨by norm_num, by decide, by decide, by decide⟩)
      (by decide) (by decide) (by decide) (by decide) (by decide)⟩

/-! ### C1: the 30% position-size cap -/

/-- C1 counterexample: with starting capital 10000 (cap 3000) and an
existing 20-share AAPL holding, a further 20-share buy at price 100 is
accepted even though the resulting position value 40 × 100 = 4000 exceeds
the cap: the engine checks only the new order value (2000). -/
theorem position_cap_counterexample :
    (executeDecision { action := "buy", ticker := some "AAPL", quantity := some 20 } 100
        ⟨10000, 8000, [("AAPL", 20)]⟩).success = true ∧
      (executeDecision { action := "buy", ticker := some "AAPL", quantity := some 20 } 100
        ⟨10000, 8000, [("AAPL", 20)]⟩).state.positions = [("AAPL", 40)] ∧
      (10000 : Rat) * MAX_POSITION_SIZE_PCT < (40 : Rat) * 100 := by
  norm_num [executeDecision, executeBuy, effQuantity, alistGet, alistHas, alistSet,
    MAX_POSITIONS, MAX_POSITION_SIZE_PCT]
  decide

/-- C1 amended: the "Position too large" cap is enforced against the value
of the new order alone (`price × quantity`), ignoring any existing holding
in the same ticker: every accepted buy has order value at most
`starting_capital × 0.30`, and a buy whose order value exceeds the cap
(once the quantity and cash checks pass) is rejected with the
"Position too large" reason. -/
theorem position_cap_checks_order_value :
    (∀ (d : LLMDecision) (price : Rat) (st : AccountState) (t : String),
        strLower d.action = "buy" → d.ticker = some t →
        (executeDecision d price st).success = true →
        price * ((effQuantity d.quantity : Int) : Rat) ≤
          st.starting_capital * MAX_POSITION_SIZE_PCT) ∧
      (∀ (d : LLMDecision) (price : Rat) (st : AccountState) (t : String),
        strLower d.action = "buy" → d.ticker = some t → t ≠ "" →
        0 < effQuantity d.quantity →
        price * ((effQuantity d.quantity : Int) : Rat) ≤ st.current_cash →
        st.starting_capital * MAX_POSITION_SIZE_PCT <
          price * ((effQuantity d.quantity : Int) : Rat) →
        (executeDecision d price st).error =
          some (positionTooLargeMsg (price * ((effQuantity d.quantity : Int) : Rat))
            (st.starting_capital * MAX_POSITION_SIZE_PCT)) ∧
          (executeDecision d price st).success = false) := by
  constructor
  · intro d price st t hbuy htick hsucc
    revert hsucc
    simp only [executeDecision, hbuy, htick]
    simp only [String.reduceEq, reduceIte, ne_eq, not_false_eq_true, and_self, if_false,
      if_true, not_true_eq_false, and_false, false_and]
    by_cases ht0 : t = ""
    · rw [if_pos ht0]
      intro hsucc
      exact Bool.noConfusion hsucc
    · rw [if_neg ht0]
      simp only [executeBuy]
      split_ifs with h1 h2 h3 h4 <;> intro hsucc
      · exact hsucc.elim
      · exact hsucc.elim
      · exact hsucc.elim
      · exact hsucc.elim
      exact not_lt.mp h3
  · intro d price st t hbuy htick hne hq hcash hcap
    simp only [executeDecision, hbuy, htick]
    simp only [String.reduceEq, reduceIte, ne_eq, not_false_eq_true, and_self, if_false,
      if_true, not_true_eq_false, and_false, false_and]
    rw [if_neg hne]
    simp only [executeBuy]
    split_ifs with h1 h2
    · exact absurd h1 (by omega)
    · exact absurd h2 (not_lt.mpr hcash)
    exact ⟨rfl, rfl⟩

/-- Witness for C1 amended: an accepted buy of 10 shares at 150 respects the
cap, and a buy of 31 shares at 100 (order value 3100 > cap 3000, cash 10000
sufficient) is rejected as "Position too large". -/
theorem position_cap_checks_order_value_witness :
    (150 : Rat) * ((effQuantity (some 10) : Int) : Rat) ≤ (10000 : Rat) * MAX_POSITION_SIZE_PCT ∧
      (executeDecision { action := "buy", ticker := some "AAPL", quantity := some 31 } 100
          ⟨10000, 10000, []⟩).error =
        some (positionTooLargeMsg ((100 : Rat) * ((effQuantity (some 31) : Int) : Rat))
          ((10000 : Rat) * MAX_POSITION_SIZE_PCT)) :=
  ⟨position_cap_checks_order_value.1
      { action := "buy", ticker := some "AAPL", quantity := some 10 } 150 ⟨10000, 10000, []⟩
      "AAPL" (by decide) rfl
      (by norm_num [executeDecision, executeBuy, effQuantity, alistGet, alistHas, alistSet,
            MAX_POSITIONS, MAX_POSITION_SIZE_PCT]
          decide),
    (position_cap_checks_order_value.2
      { action := "buy", ticker := some "AAPL", quantity := some 31 } 100 ⟨10000, 10000, []⟩
      "AAPL" (by decide) rfl (by decide) (by decide)
      (by norm_num [effQuantity])
      (by norm_num [effQuantity, MAX_POSITION_SIZE_PCT])).1⟩

/-! ### C2: quantity defaulting and validation -/

/-- C2 counterexample: a buy carrying an explicit quantity of 0 is not
rejected: Python `decision.quantity or 1` treats 0 as falsy, so the order
executes with quantity 1. -/
theorem zero_quantity_executes_counterexample :
    (executeDecision { action := "buy", ticker := some "AAPL", quantity := some 0 } 100
        ⟨10000, 10000, []⟩).success = true ∧
      (executeDecision { action := "buy", ticker := some "AAPL", quantity := some 0 } 100
        ⟨10000, 10000, []⟩).trade =
        some { action := "buy", ticker := "AAPL", quantity := 1, entry_price := 100 } := by
  norm_num [executeDecision, executeBuy, effQuantity, alistGet, alistHas, alistSet,
    MAX_POSITIONS, MAX_POSITION_SIZE_PCT]
  decide

/-- C2 amended: the quantity falls back to 1 both when it is unspecified and
when it is explicitly 0 (Python falsiness of `decision.quantity or 1`); a
negative quantity is rejected with "Quantity must be positive" before any
state change, and a decision with quantity 0 behaves exactly like the same
decision with quantity 1. -/
theorem quantity_default_and_negative_rejection :
    (∀ (d : LLMDecision) (price : Rat) (st : AccountState) (t : String) (q : Int),
        d.quantity = some q → q < 0 →
        (strLower d.action = "buy" ∨ strLower d.action = "sell") →
        d.ticker = some t → t ≠ "" →
        executeDecision d price st = ⟨false, none, some "Quantity must be positive", st⟩) ∧
      (∀ (d : LLMDecision) (price : Rat) (st : AccountState),
        d.quantity = some 0 →
        executeDecision d price st = executeDecision { d with quantity := some 1 } price st) := by
  constructor
  · intro d price st t q hqe hneg hact htick hne
    have hq0 : effQuantity d.quantity = q := by
      rw [hqe]
      simp only [effQuantity]
      rw [if_neg (by omega : ¬ q = 0)]
    rcases hact with hbuy | hsell
    · simp only [executeDecision, hbuy, htick]
      simp only [String.reduceEq, reduceIte, ne_eq, not_false_eq_true, and_self, if_false,
        if_true, not_true_eq_false, and_false, false_and]
      rw [if_neg hne]
      simp only [executeBuy, hq0]
      rw [if_pos (by omega)]
    · simp only [executeDecision, hsell, htick]
      simp only [String.reduceEq, reduceIte, ne_eq, not_false_eq_true, and_self, if_false,
        if_true, not_true_eq_false, and_false, false_and]
      rw [if_neg hne]
      simp only [executeSell, hq0]
      rw [if_pos (by omega)]
  · intro d price st hq0
    simp only [executeDecision, executeBuy, executeSell, hq0]
    norm_num [effQuantity]

/-- Witness for C2 amended: a sell with quantity −3 is rejected unchanged,
and a buy with explicit quantity 0 equals the same buy with quantity 1. -/
theorem quantity_default_and_negative_rejection_witness :
    executeDecision { action := "sell", ticker := some "AAPL", quantity := some (-3) } 100
        ⟨10000, 1000, [("AAPL", 5)]⟩ =
      ⟨false, none, some "Quantity must be positive", ⟨10000, 1000, [("AAPL", 5)]⟩⟩ ∧
      executeDecision { action := "buy", ticker := some "AAPL", quantity := some 0 } 100
          ⟨10000, 10000, []⟩ =
        executeDecision { action := "buy", ticker := some "AAPL", quantity := some 1 } 100
          ⟨10000, 10000, []⟩ :=
  ⟨quantity_default_and_negative_rejection.1
      { action := "sell", ticker := some "AAPL", quantity := some (-3) } 100
      ⟨10000, 1000, [("AAPL", 5)]⟩ "AAPL" (-3) rfl (by decide) (Or.inr (by decide)) rfl
      (by decide),
    quantity_default_and_negative_rejection.2
      { action := "buy", ticker := some "AAPL", quantity := some 0 } 100
      ⟨10000, 10000, []⟩ rfl⟩

/-! ### Scoring engine (`src/app/services/scoring_service.py`) -/

/-- Distinct non-empty tickers of a trade ledger in first-appearance order:
the grouping keys built by `_calculate_realized_pnl` (lines 154-162; a
trade with a falsy ticker is skipped). -/
def tradeTickers (ts : List Trade) : List String :=
  ts.foldl (fun acc tr =>
    if tr.ticker = "" then acc
    else if acc.contains tr.ticker then acc else acc ++ [tr.ticker]) []

/-- One step of the per-ticker loop of `_calculate_realized_pnl`
(lines 169-184); the state is `(quantity_held, entry_cost, realized_pnl)`.
A sell uses `avg_cost = entry_cost / quantity_held` when a positive
quantity is held (0 otherwise), adds `(price − avg_cost) × qty` to the
realized P&L and reduces quantity and cost proportionally. -/
def pnlStep (acc : Int × Rat × Rat) (tr : Trade) : Int × Rat × Rat :=
  if tr.action = "buy" then
    (acc.1 + tr.quantity, acc.2.1 + tr.entry_price * (tr.quantity : Rat), acc.2.2)
  else if tr.action = "sell" then
    let avg_cost := if 0 < acc.1 then acc.2.1 / ((acc.1 : Int) : Rat) else 0
    (acc.1 - tr.quantity, acc.2.1 - avg_cost * (tr.quantity : Rat),
      acc.2.2 + (tr.entry_price - avg_cost) * (tr.quantity : Rat))
  else acc

/-- Realized P&L accumulated over one grouped per-ticker trade list. -/
def tickerRealizedPnl (ts : List Trade) : Rat := (ts.foldl pnlStep (0, 0, 0)).2.2

/-- ScoringService._calculate_realized_pnl (lines 145-186): group the ledger
by ticker (insertion order, falsy tickers skipped) and sum the per-ticker
average-cost realized P&L. -/
def calculateRealizedPnl (ts : List Trade) : Rat :=
  (tradeTickers ts).foldl
    (fun acc k => acc + tickerRealizedPnl (ts.filter (fun tr => tr.ticker = k))) 0

/-- ScoringService._calculate_win_rate (lines 188-206): every sell counts as
a winning trade and the denominator is the number of sell trades; the
Python `int / int` raises ZeroDivisionError when that count is zero, which
is embedded as `Except.error "ZeroDivisionError"`. -/
def calculateWinRate (trades : List Trade) : Except String Rat :=
  if trades = [] then .ok 0
  else
    let winning_trades := (trades.filter (fun t => t.action = "sell")).length
    let sells := (trades.filter (fun t => t.action = "sell")).length
    if sells = 0 then .error "ZeroDivisionError"
    else .ok ((winning_trades : Rat) / (sells : Rat) * 100)

/-! ### C7: average-cost realized P&L -/

/-- C7: realized P&L follows average-cost accounting: a sell on a positive
held quantity uses `avg_cost = entry_cost / quantity_held`; consequently a
buy then a sell of the same quantity at the same price realizes 0, and the
ledger [buy 10 AAPL at 150, sell 5 AAPL at 160] realizes 50. -/
theorem realized_pnl_average_cost :
    (∀ (held : Int) (cost real : Rat) (tr : Trade), tr.action = "sell" → 0 < held →
        pnlStep (held, cost, real) tr =
          (held - tr.quantity, cost - (cost / (held : Rat)) * (tr.quantity : Rat),
            real + (tr.entry_price - cost / (held : Rat)) * (tr.quantity : Rat))) ∧
      (∀ (t : String) (p : Rat) (q : Int), t ≠ "" → 0 < q →
        calculateRealizedPnl [⟨"buy", t, q, p⟩, ⟨"sell", t, q, p⟩] = 0) ∧
      calculateRealizedPnl [⟨"buy", "AAPL", 10, 150⟩, ⟨"sell", "AAPL", 5, 160⟩] = 50 := by
  refine ⟨?_, ?_, ?_⟩
  · intro held cost real tr hsell hheld
    simp [pnlStep, hsell, hheld]
  · intro t p q ht hq
    have hqr : ((q : Int) : Rat) ≠ 0 := by
      exact_mod_cast (by omega : q ≠ 0)
    simp [calculateRealizedPnl, tradeTickers, tickerRealizedPnl, pnlStep, ht, hq,
      mul_div_assoc, div_self hqr]
  · simp [calculateRealizedPnl, tradeTickers, tickerRealizedPnl, pnlStep]
    norm_num

/-- Witness for C7 at a concrete round trip: buy then sell 7 shares at 33. -/
theorem realized_pnl_average_cost_witness :
    calculateRealizedPnl [⟨"buy", "XOM", 7, 33⟩, ⟨"sell", "XOM", 7, 33⟩] = 0 ∧
      pnlStep (2, 300, 0) ⟨"sell", "XOM", 1, 160⟩ =
        (1, 300 - (300 / (2 : Rat)) * 1, 0 + ((160 : Rat) - 300 / (2 : Rat)) * 1) :=
  ⟨realized_pnl_average_cost.2.1 "XOM" 33 7 (by decide) (by decide),
    realized_pnl_average_cost.1 2 300 0 ⟨"sell", "XOM", 1, 160⟩ rfl (by decide)⟩

/-! ### C10: win rate divides by zero without sells -/

/-- C10: for every non-empty ledger with no sell trades, the win-rate
computation divides by zero (the `if trades` guard only protects against
an empty ledger); the empty ledger itself returns 0. -/
theorem winRate_division_by_zero (trades : List Trade) (hne : trades ≠ [])
    (hnosell : (trades.filter (fun t => t.action = "sell")).length = 0) :
    calculateWinRate trades = .error "ZeroDivisionError" := by
  simp [calculateWinRate, hne, hnosell]

/-- Witness for C10: a one-buy ledger hits the zero division. -/
theorem winRate_division_by_zero_witness :
    calculateWinRate [⟨"buy", "AAPL", 1, 100⟩] = .error "ZeroDivisionError" :=
  winRate_division_by_zero [⟨"buy", "AAPL", 1, 100⟩] (by decide) (by decide)

/-! ### Indicator engine (`src/app/market_data_service.py`) -/

/-- Successive price deltas `prices[i] - prices[i-1]`
(`_calculate_rsi`, line 193). -/
def rsiDeltas (prices : List Rat) : List Rat :=
  (List.range (prices.length - 1)).map (fun i => prices.getD (i + 1) 0 - prices.getD i 0)

/-- Average gain over the trailing `period` deltas
(`_calculate_rsi`, lines 194 and 197: gains are `d if d > 0 else 0`,
and `gains[-period:]` keeps the trailing `period` entries). -/
def rsiAvgGain (prices : List Rat) (period : Nat) : Rat :=
  let gains := (rsiDeltas prices).map (fun d => if 0 < d then d else 0)
  (gains.drop (gains.length - period)).sum / (period : Rat)

/-- Average loss over the trailing `period` deltas
(`_calculate_rsi`, lines 195 and 198). -/
def rsiAvgLoss (prices : List Rat) (period : Nat) : Rat :=
  let losses := (rsiDeltas prices).map (fun d => if d < 0 then -d else 0)
  (losses.drop (losses.length - period)).sum / (period : Rat)

/-- Python `round(x, 2)`: round to 2 decimal places, ties to even. -/
def pyRound2 (x : Rat) : Rat :=
  let y := x * 100
  let f : Int := ⌊y⌋
  let r := y - (f : Rat)
  let n : Int :=
    if r > 1 / 2 then f + 1
    else if r < 1 / 2 then f
    else if f % 2 = 0 then f else f + 1
  (n : Rat) / 100

/-- MarketDataService._calculate_rsi (lines 178-205): unavailable below
`period + 1` points; when the average loss is zero, 100 for a positive
average gain and 50 otherwise; else the rounded standard RSI formula. -/
def calculateRsi (prices : List Rat) (period : Nat) : Option Rat :=
  if prices.length < period + 1 then none
  else
    let avg_gain := rsiAvgGain prices period
    let avg_loss := rsiAvgLoss prices period
    if avg_loss = 0 then some (if 0 < avg_gain then (100 : Rat) else 50)
    else
      let rs := avg_gain / avg_loss
      some (pyRound2 (100 - 100 / (1 + rs)))

/-! ### C8: RSI behaviour -/

/-- C8: RSI with period 14 is unavailable for fewer than 15 points; with at
least 15 points and zero trailing average loss it is 100 when the average
gain is positive and 50 otherwise; and for a strictly increasing series of
length at least 15 it is exactly 100. -/
theorem rsi_properties :
    (∀ prices : List Rat, prices.length < 15 → calculateRsi prices 14 = none) ∧
      (∀ prices : List Rat, 15 ≤ prices.length → rsiAvgLoss prices 14 = 0 →
        calculateRsi prices 14 =
          some (if 0 < rsiAvgGain prices 14 then (100 : Rat) else 50)) ∧
      (∀ prices : List Rat, 15 ≤ prices.length →
        (∀ i, i < prices.length - 1 → prices.getD i 0 < prices.getD (i + 1) 0) →
        calculateRsi prices 14 = some 100) := by
  refine ⟨?_, ?_, ?_⟩
  · intro prices hlen
    simp [calculateRsi, hlen]
  · intro prices hlen hloss
    simp only [calculateRsi]
    rw [if_neg (by omega : ¬ prices.length < 14 + 1)]
    simp [hloss]
  · intro prices hlen hmono
    have hdpos : ∀ d ∈ rsiDeltas prices, 0 < d := by
      intro d hd
      simp only [rsiDeltas, List.mem_map, List.mem_range] at hd
      obtain ⟨i, hi, rfl⟩ := hd
      exact sub_pos.mpr (hmono i hi)
    have hl0 : rsiAvgLoss prices 14 = 0 := by
      simp only [rsiAvgLoss]
      rw [List.sum_eq_zero, zero_div]
      intro x hx
      have hx2 := List.mem_of_mem_drop hx
      simp only [List.mem_map] at hx2
      obtain ⟨d, hd, rfl⟩ := hx2
      rw [if_neg (not_lt.mpr (le_of_lt (hdpos d hd)))]
    have hg : 0 < rsiAvgGain prices 14 := by
      simp only [rsiAvgGain]
      apply div_pos _ (by norm_num)
      apply List.sum_pos
      · intro x hx
        have hx2 := List.mem_of_mem_drop hx
        simp only [List.mem_map] at hx2
        obtain ⟨d, hd, rfl⟩ := hx2
        rw [if_pos (hdpos d hd)]
        exact hdpos d hd
      · have hgl : ((rsiDeltas prices).map (fun d => if 0 < d then d else 0)).length =
            prices.length - 1 := by
          simp [rsiDeltas]
        rw [← List.length_pos, List.length_drop, hgl]
        omega
    simp only [calculateRsi]
    rw [if_neg (by omega : ¬ prices.length < 14 + 1)]
    simp [hl0, hg]

/-- Witness for C8: a 3-point series has no RSI, and the strictly
increasing series 1..15 has RSI 100. -/
theorem rsi_properties_witness :
    calculateRsi [1, 2, 3] 14 = none ∧
      calculateRsi [1, 2, 3, 4, 5, 6, 7, 8, 9, 10, 11, 12, 13, 14, 15] 14 = some 100 :=
  ⟨rsi_properties.1 [1, 2, 3] (by decide),
    rsi_properties.2.2 [1, 2, 3, 4, 5, 6, 7, 8, 9, 10, 11, 12, 13, 14, 15] (by decide)
      (by decide)⟩

/-! ### LLM response parsing (`src/app/core/llm_service.py`) -/

/-- Fields of the JSON object a provider response may carry, each possibly
absent, after value conversion. The loader argument of `parseResponse`
abstracts Python `json.loads` plus the `float(...)` conversion of
`confidence`: a `json.JSONDecodeError`, `KeyError` or `ValueError` is an
`Except.error` carrying `str(e)`. -/
structure RawDecision where
  action : Option String := none
  ticker : Option String := none
  quantity : Option Int := none
  confidence : Option Rat := none
  reasoning : Option String := none
deriving Repr, DecidableEq

/-- Code-fence extraction of `_parse_response` (lines 74-78): strip the
text, then take what stands between a ```json fence, else between plain
``` fences, else the whole stripped text. -/
def extractJson (raw : String) : String :=
  let s := raw.trim
  match s.splitOn "```json" with
  | _ :: second :: _ => (second.splitOn "```").headD ""
  | _ =>
    match s.splitOn "```" with
    | _ :: second :: _ => (second.splitOn "```").headD ""
    | _ => s

/-- OpenAIProvider._parse_response (`src/app/core/llm_service.py`,
lines 70-97; the Anthropic and DeepSeek providers repeat the same code):
on a successful load every missing field is defaulted (`action` "hold",
`confidence` 0.5, `reasoning` ""); on a load failure the fallback decision
`hold` with confidence 0 and the cause in `reasoning` is returned. -/
def parseResponse (jsonLoads : String → Except String RawDecision) (text : String) :
    LLMDecision :=
  match jsonLoads (extractJson text) with
  | .ok data =>
    { action := strLower (data.action.getD "hold")
      ticker := data.ticker
      quantity := data.quantity
      confidence := data.confidence.getD (1 / 2)
      reasoning := data.reasoning.getD "" }
  | .error e =>
    { action := "hold", confidence := 0, reasoning := "Failed to parse response: " ++ e }

/-- Model of `json.loads` on the input `"{}"`: the empty JSON object loads
successfully with every field absent. -/
def loadsEmptyObject : String → Except String RawDecision := fun _ => .ok {}

/-- Model of `json.loads` on a non-JSON input such as `"not json"`: the
load raises `json.JSONDecodeError`, whose message it carries. -/
def loadsInvalid : String → Except String RawDecision :=
  fun _ => .error "Expecting value: line 1 column 1 (char 0)"

/-! ### C5: parser degradation -/

/-- C5 counterexample: a successfully parsed object with every required
field missing (the response `"{}"`) does not degrade to the
confidence-0 fallback: the parser fills defaults instead, yielding
confidence 0.5 and an empty reasoning string. -/
theorem parse_missing_fields_counterexample :
    parseResponse loadsEmptyObject "{}" =
      { action := "hold", ticker := none, quantity := none, confidence := 1 / 2,
        reasoning := "" } ∧
      ¬ ((parseResponse loadsEmptyObject "{}").confidence = 0 ∧
        (parseResponse loadsEmptyObject "{}").reasoning ≠ "") := by
  constructor
  · rfl
  · intro h
    exact h.2 rfl

/-- C5 amended: the parser never propagates a load failure: for every
loader and response text, a load failure yields action "hold", confidence
0 and a non-empty reasoning citing the cause; a successful load never
enters that fallback — missing fields are defaulted to action "hold",
confidence 0.5 and empty reasoning instead. -/
theorem parse_failure_degrades :
    (∀ (jsonLoads : String → Except String RawDecision) (text e : String),
        jsonLoads (extractJson text) = .error e →
        (parseResponse jsonLoads text).action = "hold" ∧
          (parseResponse jsonLoads text).confidence = 0 ∧
          (parseResponse jsonLoads text).reasoning ≠ "") ∧
      (∀ (jsonLoads : String → Except String RawDecision) (text : String)
          (data : RawDecision),
        jsonLoads (extractJson text) = .ok data →
        parseResponse jsonLoads text =
          { action := strLower (data.action.getD "hold"), ticker := data.ticker,
            quantity := data.quantity, confidence := data.confidence.getD (1 / 2),
            reasoning := data.reasoning.getD "" }) := by
  constructor
  · intro jsonLoads text e herr
    simp only [parseResponse, herr]
    refine ⟨trivial, trivial, ?_⟩
    intro hcontra
    have hd := congrArg String.data hcontra
    simp [String.data_append] at hd
  · intro jsonLoads text data hok
    simp only [parseResponse, hok]

/-- Witness for C5: the text "not json" fails to load and parses to a hold
decision with confidence 0 and non-empty reasoning; the text "{}" loads an
empty object and gets the defaults. -/
theorem parse_failure_degrades_witness :
    ((parseResponse loadsInvalid "not json").action = "hold" ∧
        (parseResponse loadsInvalid "not json").confidence = 0 ∧
        (parseResponse loadsInvalid "not json").reasoning ≠ "") ∧
      parseResponse loadsEmptyObject "{}" =
        { action := strLower ((none : Option String).getD "hold"), ticker := none,
          quantity := none, confidence := (none : Option Rat).getD (1 / 2),
          reasoning := (none : Option String).getD "" } :=
  ⟨parse_failure_degrades.1 loadsInvalid "not json"
      "Expecting value: line 1 column 1 (char 0)" rfl,
    parse_failure_degrades.2 loadsEmptyObject "{}" {} rfl⟩

/-! ### Parallel decision fan-out (`src/app/core/llm_service.py`) -/

/-- Outcome of one provider task as observed by
`asyncio.gather(*tasks, return_exceptions=True)` (line 319): either the
decision, or the exception converted to its message. -/
abbrev ProviderResult := Except String LLMDecision

/-- Per-agent combination step of `get_decisions_parallel`
(lines 322-332): an exception becomes a hold decision with confidence 0
and the cause in its reasoning; a normal result passes through. -/
def combineResult (r : ProviderResult) : LLMDecision :=
  match r with
  | .error e =>
    { action := "hold", confidence := 0, reasoning := "Error getting decision: " ++ e }
  | .ok dec => dec

/-- LLMOrchestrator.get_decisions_parallel (lines 287-334), the concurrent
provider calls abstracted by their per-task outcomes: the result dict
keyed by agent id is built over the zipped (agent_id, outcome) pairs in
input order. -/
def getDecisionsParallel (configs : List (Nat × ProviderResult)) :
    List (Nat × LLMDecision) :=
  configs.foldl (fun acc c => alistSet acc c.1 (combineResult c.2)) []

theorem alistSet_eq_append {κ β : Type} [DecidableEq κ] {acc : List (κ × β)} {k : κ}
    (v : β) (h : alistHas acc k = false) : alistSet acc k v = acc ++ [(k, v)] := by
  induction acc with
  | nil => simp [alistSet]
  | cons hd rest ih =>
    obtain ⟨k2, v2⟩ := hd
    by_cases hk : k2 = k
    · simp [alistHas, alistGet, hk] at h
    · simp only [alistHas, alistGet, if_neg hk] at h
      simpa [alistSet, hk] using ih h

theorem getDecisionsParallel_go (configs : List (Nat × ProviderResult))
    (acc : List (Nat × LLMDecision))
    (h : (acc.map Prod.fst ++ configs.map Prod.fst).Nodup) :
    configs.foldl (fun acc c => alistSet acc c.1 (combineResult c.2)) acc =
      acc ++ configs.map (fun c => (c.1, combineResult c.2)) := by
  induction configs generalizing acc with
  | nil => simp
  | cons c rest ih =>
    obtain ⟨aid, r⟩ := c
    have hnot : alistHas acc aid = false := by
      have hmem : aid ∉ acc.map Prod.fst := by
        simp only [List.nodup_append] at h
        exact fun hin => h.2.2 hin (by simp)
      rcases hhas : alistHas acc aid with _ | _
      · rfl
      · exact absurd ((alistHas_iff_mem_keys acc aid).mp hhas) hmem
    simp only [List.foldl_cons, alistSet_eq_append _ hnot]
    rw [ih]
    · simp
    · simpa using h

theorem alistGet_map_combine (l : List (Nat × ProviderResult)) (aid : Nat)
    (r : ProviderResult) (hnd : (l.map Prod.fst).Nodup) (hmem : (aid, r) ∈ l) :
    alistGet (l.map (fun c => (c.1, combineResult c.2))) aid = some (combineResult r) := by
  induction l with
  | nil => simp at hmem
  | cons c rest ih =>
    obtain ⟨k, v⟩ := c
    simp only [List.map_cons, alistGet]
    rcases List.mem_cons.mp hmem with heq | htail
    · injection heq with h1 h2
      rw [if_pos h1.symm, h2]
    · by_cases hk : k = aid
      · exfalso
        have : aid ∈ rest.map Prod.fst := by
          exact List.mem_map_of_mem Prod.fst htail
        rw [← hk] at this
        simp only [List.map_cons, List.nodup_cons] at hnd
        exact hnd.1 this
      · rw [if_neg hk]
        exact ih (by simp only [List.map_cons, List.nodup_cons] at hnd; exact hnd.2) htail

/-! ### C6: one decision per agent, per-agent failure isolation -/

/-- C6: for every batch of configurations with distinct agent ids, the
parallel call returns exactly one decision per configuration keyed by
agent id: an agent whose provider call raised gets the hold fallback with
the cause in its reasoning, and every other agent gets its own decision
unchanged. -/
theorem parallel_decisions_isolation (configs : List (Nat × ProviderResult))
    (hnd : (configs.map Prod.fst).Nodup) :
    (getDecisionsParallel configs).length = configs.length ∧
      (∀ (aid : Nat) (e : String), (aid, Except.error e) ∈ configs →
        alistGet (getDecisionsParallel configs) aid =
          some { action := "hold", ticker := none, quantity := none, confidence := 0,
                 reasoning := "Error getting decision: " ++ e }) ∧
      (∀ (aid : Nat) (dec : LLMDecision), (aid, Except.ok dec) ∈ configs →
        alistGet (getDecisionsParallel configs) aid = some dec) := by
  have hrw : getDecisionsParallel configs =
      configs.map (fun c => (c.1, combineResult c.2)) := by
    have := getDecisionsParallel_go configs [] (by simpa using hnd)
    simpa [getDecisionsParallel] using this
  refine ⟨?_, ?_, ?_⟩
  · rw [hrw, List.length_map]
  · intro aid e hmem
    rw [hrw, alistGet_map_combine configs aid (Except.error e) hnd hmem]
    rfl
  · intro aid dec hmem
    rw [hrw, alistGet_map_combine configs aid (Except.ok dec) hnd hmem]
    rfl

/-- Witness for C6: a 3-agent batch where the second provider call timed
out still returns 3 decisions; agent 2 gets the hold fallback and agents 1
and 3 their own decisions. -/
theorem parallel_decisions_isolation_witness :
    (getDecisionsParallel
        [(1, Except.ok { action := "buy", ticker := some "AAPL", confidence := 1 }),
          (2, Except.error "timeout"),
          (3, Except.ok { action := "hold", confidence := 1 })]).length = 3 ∧
      alistGet (getDecisionsParallel
        [(1, Except.ok { action := "buy", ticker := some "AAPL", confidence := 1 }),
          (2, Except.error "timeout"),
          (3, Except.ok { action := "hold", confidence := 1 })]) 2 =
        some { action := "hold", ticker := none, quantity := none, confidence := 0,
               reasoning := "Error getting decision: " ++ "timeout" } ∧
      alistGet (getDecisionsParallel
        [(1, Except.ok { action := "buy", ticker := some "AAPL", confidence := 1 }),
          (2, Except.error "timeout"),
          (3, Except.ok { action := "hold", confidence := 1 })]) 1 =
        some { action := "buy", ticker := some "AAPL", confidence := 1 } :=
  ⟨(parallel_decisions_isolation _ (by decide)).1,
    (parallel_decisions_isolation _ (by decide)).2.1 2 "timeout" (by simp),
    (parallel_decisions_isolation _ (by decide)).2.2 1
      { action := "buy", ticker := some "AAPL", confidence := 1 } (by simp)⟩

/-! ### Standings (`src/app/services/scoring_service.py`) -/

/-- Standings row: the fields read when sorting a league
(`get_league_standings`, lines 59-74): `total_pnl` is realized plus
unrealized P&L, fixed at row construction. -/
structure StandingsAgent where
  agent_id : Nat
  total_pnl : Rat
deriving Repr, DecidableEq

/-- Comparison used by the standings sort: agent `a` may precede agent `b`
when `b.total_pnl ≤ a.total_pnl` (descending by total P&L). -/
def standingsLe (a b : StandingsAgent) : Bool := decide (b.total_pnl ≤ a.total_pnl)

/-- ScoringService.get_league_standings sorting step (line 74):
`standings.sort(key=lambda x: x.total_pnl, reverse=True)` — a stable sort
by total P&L descending, embedded with the stable `List.mergeSort`. -/
def sortStandings (agents : List StandingsAgent) : List StandingsAgent :=
  agents.mergeSort standingsLe

/-- Rank assignment of `calculate_weekly_scores` (line 124): the 1-based
position in the sorted standings. -/
def standingsRank (i : Nat) : Nat := i + 1

theorem standingsLe_trans (a b c : StandingsAgent) (h1 : standingsLe a b = true)
    (h2 : standingsLe b c = true) : standingsLe a c = true := by
  simp only [standingsLe, decide_eq_true_eq] at *
  exact le_trans h2 h1

theorem standingsLe_total (a b : StandingsAgent) :
    (standingsLe a b || standingsLe b a) = true := by
  simp only [standingsLe, Bool.or_eq_true, decide_eq_true_eq]
  exact le_total b.total_pnl a.total_pnl

/-! ### C9: standings order and ranks -/

/-- C9: the standings are the input agents sorted stably by total P&L
descending (a permutation; any subsequence already in descending order —
in particular any run of tied agents — keeps its relative order), and for
any two positions in the sorted standings, the agent with strictly greater
total P&L gets the strictly smaller 1-based rank. -/
theorem standings_rank_strict (agents : List StandingsAgent) :
    (sortStandings agents).Perm agents ∧
      (∀ sub : List StandingsAgent, sub.Sublist agents →
        sub.Pairwise (fun a b => b.total_pnl ≤ a.total_pnl) →
        sub.Sublist (sortStandings agents)) ∧
      (∀ (i j : Nat) (hi : i < (sortStandings agents).length)
          (hj : j < (sortStandings agents).length),
        ((sortStandings agents).get ⟨j, hj⟩).total_pnl <
            ((sortStandings agents).get ⟨i, hi⟩).total_pnl →
        standingsRank i < standingsRank j) := by
  have hsorted : (sortStandings agents).Pairwise (fun a b => standingsLe a b = true) :=
    List.sorted_mergeSort standingsLe_trans standingsLe_total agents
  refine ⟨List.mergeSort_perm agents standingsLe, ?_, ?_⟩
  · intro sub hsub hpair
    refine List.sublist_mergeSort standingsLe_trans standingsLe_total ?_ hsub
    exact hpair.imp (fun h => by simpa [standingsLe] using h)
  · intro i j hi hj hlt
    rw [List.pairwise_iff_get] at hsorted
    simp only [standingsRank, Nat.add_lt_add_iff_right]
    by_contra hij
    rcases Nat.lt_or_ge j i with hji | hge
    · have := hsorted ⟨j, hj⟩ ⟨i, hi⟩ hji
      simp only [standingsLe, decide_eq_true_eq] at this
      exact absurd hlt (not_lt.mpr this)
    · have heq : i = j := le_antisymm hge (not_lt.mp hij)
      subst heq
      exact lt_irrefl _ hlt

unseal List.merge List.mergeSort in
/-- Witness for C9: with agents of P&L 5 and 10, the sorted standings are a
permutation of the input and the richer agent (position 0) outranks the
poorer one (position 1). -/
theorem standings_rank_strict_witness :
    (sortStandings [⟨1, 5⟩, ⟨2, 10⟩]).Perm [⟨1, 5⟩, ⟨2, 10⟩] ∧
      standingsRank 0 < standingsRank 1 :=
  ⟨(standings_rank_strict [⟨1, 5⟩, ⟨2, 10⟩]).1,
    (standings_rank_strict [⟨1, 5⟩, ⟨2, 10⟩]).2.2 0 1 (by decide) (by decide) (by decide)⟩

end StockFantasy
